import Mathlib

/-!
Verification of the text-reflow-to-paged-canvas core of the PDF_Creator
repository (src/app.py): the greedy word-wrap routine wrap_text and the
paginated renderer create_pdf_from_text.

Strings are modelled as lists of characters.  The reportlab canvas is
modelled by an abstract width-measurement function (stringWidth) plus an
instruction stream recording setFont / setFillColor / drawString /
showPage calls.  All geometry constants follow the source: LETTER page
612 x 792, margin 72 (one inch), usable width 468, title at y = 720,
body cursor starting at 684, line advance font_size + 4, bottom
threshold 72.  Every numeric constant in the source is an integer, so
widths, coordinates and font sizes are carried in ℤ; the width function
itself stays an arbitrary parameter.
-/

/-- Python strings are modelled as lists of characters. -/
abbrev Str := List Char

/-- Whitespace test used by Python str.split() and str.strip(). -/
def isSpaceC (c : Char) : Bool := c.isWhitespace

/-- Accumulator worker for Python str.split() with no separator:
split on runs of whitespace, dropping empty tokens.  The accumulator
holds the current token reversed. -/
def pySplitAux : Str → Str → List Str
  | [], acc => if acc = [] then [] else [acc.reverse]
  | c :: cs, acc =>
    if isSpaceC c then
      if acc = [] then pySplitAux cs []
      else acc.reverse :: pySplitAux cs []
    else pySplitAux cs (c :: acc)

/-- Python text.split(): maximal whitespace-delimited tokens, in order. -/
def pySplit (s : Str) : List Str := pySplitAux s []

/-- A word produced by pySplit: non-empty and free of whitespace. -/
def wordOK (w : Str) : Prop := w ≠ [] ∧ ∀ c ∈ w, isSpaceC c = false

/-- Join a list of words with single spaces (the shape of every line
built by the greedy wrap loop). -/
def joinWords : List Str → Str
  | [] => []
  | [w] => w
  | w :: ws => w ++ ' ' :: joinWords ws

/-- The canvas width-measurement function stringWidth(s, font, font_size),
abstracted over the reportlab font machinery. -/
abbrev SW := Str → Str → ℤ → ℤ

/-- Loop body of wrap_text (src/app.py lines 68-76): greedy line fill
over the word list, threading current_line; the else branch appends
current_line even when it is empty, and a non-empty current_line is
flushed after the loop. -/
def wrapAux (m : Str → ℤ) (maxW : ℤ) : List Str → Str → List Str
  | [], cur => if cur = [] then [] else [cur]
  | w :: ws, cur =>
    let test := if cur = [] then w else cur ++ ' ' :: w
    if m test ≤ maxW then wrapAux m maxW ws test
    else cur :: wrapAux m maxW ws w

/-- wrap_text(text, canvas_obj, max_width, font, font_size) from
src/app.py lines 63-77: split text on whitespace and greedily fill
lines measured by canvas_obj.stringWidth at the given font and size.
The canvas argument is represented by its stringWidth function; the
setFont side effect it performs is replayed by the renderer below. -/
def wrap_text (text : Str) (sw : SW) (maxW : ℤ) (font : Str) (fontSize : ℤ) : List Str :=
  wrapAux (fun s => sw s font fontSize) maxW (pySplit text) []

/-- Width measure assigning 1 unit per character (spaces included). -/
def swLen : SW := fun s _ _ => (s.length : ℤ)

/-- Python s.strip(): drop whitespace from both ends. -/
def strip (s : Str) : Str :=
  ((s.dropWhile isSpaceC).reverse.dropWhile isSpaceC).reverse

/-- Accumulator worker for Python s.split(newline): split at every
newline character, keeping empty pieces. -/
def splitNLAux : Str → Str → List Str
  | [], acc => [acc.reverse]
  | c :: cs, acc =>
    if c = '\n' then acc.reverse :: splitNLAux cs []
    else splitNLAux cs (c :: acc)

/-- Python text.split(newline-string): paragraphs, empties preserved. -/
def splitNL (s : Str) : List Str := splitNLAux s []

/-- Colors used by create_pdf_from_text: the caller-supplied hex color
for the title and black for the body. -/
inductive PdfColor
  | hex (s : Str)
  | black
deriving DecidableEq

/-- One call made on the reportlab canvas. -/
inductive Instr
  | setFont (font : Str) (size : ℤ)
  | setFillColor (c : PdfColor)
  | drawString (x y : ℤ) (s : Str)
  | showPage
deriving DecidableEq

/-- Usable line width: LETTER width 612 minus two 1-inch margins. -/
def maxWidth : ℤ := 612 - 2 * 72

/-- Top cursor position: LETTER height 792 minus 72. -/
def topY : ℤ := 792 - 72

/-- Title drawn at the top of the first page. -/
def titleStr : Str := "AI-Generated Document".toList

/-- Inner loop of create_pdf_from_text (src/app.py lines 98-104): draw
each wrapped line at the cursor, advance by font_size + 4, and when the
cursor falls below 72 emit showPage, reset to the top and re-set the
body font.  Returns the emitted instructions and the final cursor. -/
def renderLines (font : Str) (fs : ℤ) : List Str → ℤ → List Instr × ℤ
  | [], y => ([], y)
  | l :: ls, y =>
    if y - (fs + 4) < 72 then
      (Instr.drawString 72 y l :: Instr.showPage :: Instr.setFont font fs ::
        (renderLines font fs ls topY).1,
       (renderLines font fs ls topY).2)
    else
      (Instr.drawString 72 y l :: (renderLines font fs ls (y - (fs + 4))).1,
       (renderLines font fs ls (y - (fs + 4))).2)

/-- Outer loop of create_pdf_from_text (src/app.py lines 96-104): for
each paragraph, wrap_text first re-sets the body font on the canvas
(its setFont side effect) and the wrapped lines are then drawn. -/
def renderParas (sw : SW) (font : Str) (fs : ℤ) : List Str → ℤ → List Instr × ℤ
  | [], y => ([], y)
  | p :: ps, y =>
    (Instr.setFont font fs ::
      (renderLines font fs (wrap_text (strip p) sw maxWidth font fs) y).1 ++
      (renderParas sw font fs ps
        (renderLines font fs (wrap_text (strip p) sw maxWidth font fs) y).2).1,
     (renderParas sw font fs ps
       (renderLines font fs (wrap_text (strip p) sw maxWidth font fs) y).2).2)

/-- create_pdf_from_text(text, output_path, color_hex, font, font_size)
from src/app.py lines 79-106, as the stream of canvas calls it makes:
title in font_size + 6 and the given color at y = 720, then the body in
black starting at y = 684, paragraph by paragraph. -/
def create_pdf_from_text (text : Str) (sw : SW) (colorHex : Str) (font : Str) (fs : ℤ) : List Instr :=
  Instr.setFont font (fs + 6) ::
  Instr.setFillColor (PdfColor.hex colorHex) ::
  Instr.drawString 72 topY titleStr ::
  Instr.setFont font fs ::
  Instr.setFillColor PdfColor.black ::
  (renderParas sw font fs (splitNL text) (topY - 36)).1

/-- Number of showPage (page-break) instructions in a stream. -/
def countSP : List Instr → ℕ
  | [] => 0
  | i :: is =>
    (match i with
     | Instr.showPage => 1
     | _ => 0) + countSP is

/-- Independent page-break count: starting from cursor y, subtract one
advance per line and count each time the cursor falls below 72,
resetting it to the top.  Returns the count and the final cursor. -/
def breakSim (adv : ℤ) : List Str → ℤ → ℕ × ℤ
  | [], y => (0, y)
  | _ :: ls, y =>
    if y - adv < 72 then
      ((breakSim adv ls topY).1 + 1, (breakSim adv ls topY).2)
    else breakSim adv ls (y - adv)

/-- All body lines of a document, in drawing order: each paragraph
stripped and wrapped at the usable width, then concatenated. -/
def allWrappedLines (text : Str) (sw : SW) (font : Str) (fs : ℤ) : List Str :=
  ((splitNL text).map (fun p => wrap_text (strip p) sw maxWidth font fs)).flatten

/-- Width measure making every single word exactly fill the usable
width, so every wrapped line holds one word. -/
def swWide : SW := fun s _ _ => 468 * ((pySplit s).length : ℤ)

/-- Forty-four single-character words: wrapped with swWide they give 44
lines, filling the first page past its body capacity. -/
def text44 : Str := (String.intercalate " " (List.replicate 44 "a")).toList

/-- A drawString instruction lies at or above height b; other
instructions impose nothing. -/
def drawsAtOrAbove (b : ℤ) : Instr → Prop
  | Instr.drawString _ y _ => b ≤ y
  | _ => True

/-- Executing a stream against a canvas with registered-font set reg:
a setFont naming an unregistered font raises, aborting execution.
Returns the successfully executed prefix and whether all succeeded. -/
def execCanvas (reg : Str → Bool) : List Instr → List Instr × Bool
  | [] => ([], true)
  | Instr.setFont f sz :: is =>
    if reg f then
      let r := execCanvas reg is
      (Instr.setFont f sz :: r.1, r.2)
    else ([], false)
  | i :: is =>
    let r := execCanvas reg is
    (i :: r.1, r.2)

/-! ### Lemmas about pySplit and joinWords -/

lemma pySplitAux_word : ∀ (w : Str), (∀ c ∈ w, isSpaceC c = false) →
    ∀ (s acc : Str), pySplitAux (w ++ s) acc = pySplitAux s (w.reverse ++ acc) := by
  intro w
  induction w with
  | nil => intro _ s acc; simp
  | cons c cs ih =>
    intro hw s acc
    have hc : isSpaceC c = false := hw c (List.mem_cons_self c cs)
    simp only [List.cons_append, pySplitAux, hc, Bool.false_eq_true, if_false,
      List.append_eq]
    rw [ih (fun x hx => hw x (List.mem_cons_of_mem c hx)) s (c :: acc)]
    simp [List.reverse_cons, List.append_assoc]

lemma pySplitAux_wordOK : ∀ (s acc : Str), (∀ c ∈ acc, isSpaceC c = false) →
    ∀ w ∈ pySplitAux s acc, wordOK w := by
  intro s
  induction s with
  | nil =>
    intro acc hacc w hw
    by_cases h : acc = []
    · simp [pySplitAux, h] at hw
    · simp [pySplitAux, h] at hw
      subst hw
      refine ⟨by simpa using h, fun c hc => hacc c (List.mem_reverse.mp hc)⟩
  | cons c cs ih =>
    intro acc hacc w hw
    by_cases hsp : isSpaceC c = true
    · by_cases h : acc = []
      · rw [pySplitAux] at hw
        simp only [hsp, if_true, h, if_pos rfl] at hw
        exact ih [] (by simp) w hw
      · rw [pySplitAux] at hw
        simp only [hsp, if_true, if_neg h] at hw
        rcases List.mem_cons.mp hw with hw | hw
        · subst hw
          refine ⟨by simpa using h, fun x hx => hacc x (List.mem_reverse.mp hx)⟩
        · exact ih [] (by simp) w hw
    · rw [pySplitAux] at hw
      simp only [hsp, if_false] at hw
      refine ih (c :: acc) ?_ w hw
      intro x hx
      rcases List.mem_cons.mp hx with rfl | hx
      · simpa using hsp
      · exact hacc x hx

lemma pySplit_wordOK (s : Str) : ∀ w ∈ pySplit s, wordOK w :=
  pySplitAux_wordOK s [] (by simp)

lemma joinWords_cons_cons (w v : Str) (vs : List Str) :
    joinWords (w :: v :: vs) = w ++ ' ' :: joinWords (v :: vs) := by
  simp [joinWords]

lemma pySplit_joinWords : ∀ (ws : List Str), (∀ w ∈ ws, wordOK w) →
    pySplit (joinWords ws) = ws := by
  intro ws
  induction ws with
  | nil => intro _; rfl
  | cons w vs ih =>
    intro h
    have hw : wordOK w := h w (List.mem_cons_self w vs)
    cases vs with
    | nil =>
      show pySplitAux (joinWords [w]) [] = [w]
      have hjw : joinWords [w] = w ++ [] := by simp [joinWords]
      rw [hjw, pySplitAux_word w hw.2 [] []]
      simp [pySplitAux, hw.1]
    | cons v vs2 =>
      have htail : ∀ u ∈ v :: vs2, wordOK u := fun u hu => h u (List.mem_cons_of_mem w hu)
      show pySplitAux (joinWords (w :: v :: vs2)) [] = _
      rw [joinWords_cons_cons, pySplitAux_word w hw.2 (' ' :: joinWords (v :: vs2)) []]
      have hsp : isSpaceC ' ' = true := by decide
      simp only [pySplitAux, hsp, if_true, List.append_nil]
      rw [if_neg (by simpa using hw.1)]
      simp only [List.reverse_reverse, List.cons.injEq, true_and]
      exact ih htail

lemma joinWords_ne_nil (w : Str) (ws : List Str) (hw : w ≠ []) :
    joinWords (w :: ws) ≠ [] := by
  cases ws with
  | nil => simpa [joinWords] using hw
  | cons v vs => simp [joinWords]

lemma joinWords_append_single : ∀ (ws : List Str) (w : Str), ws ≠ [] →
    joinWords (ws ++ [w]) = joinWords ws ++ ' ' :: w := by
  intro ws
  induction ws with
  | nil => intro w h; exact absurd rfl h
  | cons v vs ih =>
    intro w _
    cases vs with
    | nil => simp [joinWords]
    | cons u us =>
      have hstep := ih w (by simp)
      simp only [List.cons_append, joinWords_cons_cons] at hstep ⊢
      rw [hstep]
      simp [List.append_assoc]

/-! ### Invariants of the greedy wrap loop -/

lemma joinWords_nil_iff (cws : List Str) (h : ∀ w ∈ cws, wordOK w) :
    joinWords cws = [] ↔ cws = [] := by
  cases cws with
  | nil => simp [joinWords]
  | cons w ws =>
    constructor
    · intro hc
      exact absurd hc (joinWords_ne_nil w ws (h w (List.mem_cons_self w ws)).1)
    · intro hc
      exact absurd hc (List.cons_ne_nil w ws)

lemma wrapAux_test_eq (cws : List Str) (w : Str) (h : ∀ u ∈ cws, wordOK u) :
    (if joinWords cws = [] then w else joinWords cws ++ ' ' :: w)
      = joinWords (cws ++ [w]) := by
  by_cases hc : cws = []
  · subst hc; simp [joinWords]
  · rw [if_neg ((joinWords_nil_iff cws h).not.mpr hc),
      joinWords_append_single cws w hc]

lemma wrapAux_shape (m : Str → ℤ) (X : ℤ) :
    ∀ (ws : List Str), (∀ w ∈ ws, wordOK w) →
    ∀ (cws : List Str), (∀ w ∈ cws, wordOK w) →
    (cws = [] ∨ m (joinWords cws) ≤ X ∨ cws.length = 1) →
    ∀ l ∈ wrapAux m X ws (joinWords cws),
      ∃ us, (∀ u ∈ us, wordOK u) ∧ l = joinWords us ∧
        (us = [] ∨ m l ≤ X ∨ us.length = 1) := by
  intro ws
  induction ws with
  | nil =>
    intro _ cws hcws hinv l hl
    by_cases h : cws = []
    · subst h; simp [wrapAux, joinWords] at hl
    · rw [wrapAux, if_neg ((joinWords_nil_iff cws hcws).not.mpr h)] at hl
      rcases List.mem_singleton.mp hl with rfl
      exact ⟨cws, hcws, rfl, hinv⟩
  | cons w ws2 ih =>
    intro hws cws hcws hinv l hl
    have hw : wordOK w := hws w (List.mem_cons_self w ws2)
    have hws2 : ∀ u ∈ ws2, wordOK u := fun u hu => hws u (List.mem_cons_of_mem w hu)
    have hcws2 : ∀ u ∈ cws ++ [w], wordOK u := by
      intro u hu
      rcases List.mem_append.mp hu with hu | hu
      · exact hcws u hu
      · rcases List.mem_singleton.mp hu with rfl; exact hw
    rw [wrapAux] at hl
    simp only [wrapAux_test_eq cws w hcws] at hl
    by_cases hm : m (joinWords (cws ++ [w])) ≤ X
    · rw [if_pos hm] at hl
      exact ih hws2 (cws ++ [w]) hcws2 (Or.inr (Or.inl hm)) l hl
    · rw [if_neg hm] at hl
      rcases List.mem_cons.mp hl with rfl | hl
      · exact ⟨cws, hcws, rfl, hinv⟩
      · have hjw : w = joinWords [w] := by simp [joinWords]
        rw [hjw] at hl
        refine ih hws2 [w] ?_ (Or.inr (Or.inr rfl)) l hl
        intro u hu; rcases List.mem_singleton.mp hu with rfl; exact hw

lemma wrapAux_flatten (m : Str → ℤ) (X : ℤ) :
    ∀ (ws : List Str), (∀ w ∈ ws, wordOK w) →
    ∀ (cws : List Str), (∀ w ∈ cws, wordOK w) →
    ((wrapAux m X ws (joinWords cws)).map pySplit).flatten = cws ++ ws := by
  intro ws
  induction ws with
  | nil =>
    intro _ cws hcws
    by_cases h : cws = []
    · subst h; simp [wrapAux, joinWords]
    · rw [wrapAux, if_neg ((joinWords_nil_iff cws hcws).not.mpr h)]
      simp [pySplit_joinWords cws hcws]
  | cons w ws2 ih =>
    intro hws cws hcws
    have hw : wordOK w := hws w (List.mem_cons_self w ws2)
    have hws2 : ∀ u ∈ ws2, wordOK u := fun u hu => hws u (List.mem_cons_of_mem w hu)
    have hcws2 : ∀ u ∈ cws ++ [w], wordOK u := by
      intro u hu
      rcases List.mem_append.mp hu with hu | hu
      · exact hcws u hu
      · rcases List.mem_singleton.mp hu with rfl; exact hw
    have hwsingle : ∀ u ∈ [w], wordOK u := by
      intro u hu; rcases List.mem_singleton.mp hu with rfl; exact hw
    rw [wrapAux]
    simp only [wrapAux_test_eq cws w hcws]
    by_cases hm : m (joinWords (cws ++ [w])) ≤ X
    · rw [if_pos hm, ih hws2 (cws ++ [w]) hcws2]
      simp
    · rw [if_neg hm]
      have hflat := ih hws2 [w] hwsingle
      rw [show joinWords [w] = w from by simp [joinWords]] at hflat
      simp only [List.map_cons, List.flatten_cons, pySplit_joinWords cws hcws, hflat]
      simp

lemma wrapAux_ne_nil (m : Str → ℤ) (X : ℤ) :
    ∀ (ws : List Str) (cur : Str), (∀ w ∈ ws, w ≠ []) → (ws ≠ [] ∨ cur ≠ []) →
    wrapAux m X ws cur ≠ [] := by
  intro ws
  induction ws with
  | nil =>
    intro cur _ h
    rcases h with h | h
    · exact absurd rfl h
    · simp [wrapAux, h]
  | cons w ws2 ih =>
    intro cur hws _
    rw [wrapAux]
    by_cases hm : m (if cur = [] then w else cur ++ ' ' :: w) ≤ X
    · rw [if_pos hm]
      refine ih _ (fun u hu => hws u (List.mem_cons_of_mem w hu)) (Or.inr ?_)
      by_cases hc : cur = []
      · simpa [hc] using hws w (List.mem_cons_self w ws2)
      · simp [hc]
    · rw [if_neg hm]
      simp

/-! ### Invariants of the paginated renderer -/

lemma renderLines_above (font : Str) (fs : ℤ) :
    ∀ (ls : List Str) (y : ℤ), 72 ≤ y →
    (∀ i ∈ (renderLines font fs ls y).1, drawsAtOrAbove 72 i) ∧
      72 ≤ (renderLines font fs ls y).2 := by
  intro ls
  induction ls with
  | nil =>
    intro y hy
    refine ⟨?_, hy⟩
    intro i hi
    simp [renderLines] at hi
  | cons l ls2 ih =>
    intro y hy
    rw [renderLines]
    by_cases h : y - (fs + 4) < 72
    · rw [if_pos h]
      have h2 := ih topY (by norm_num [topY])
      refine ⟨?_, h2.2⟩
      intro i hi
      rcases List.mem_cons.mp hi with rfl | hi
      · exact hy
      · rcases List.mem_cons.mp hi with rfl | hi
        · trivial
        · rcases List.mem_cons.mp hi with rfl | hi
          · trivial
          · exact h2.1 i hi
    · rw [if_neg h]
      have h2 := ih (y - (fs + 4)) (le_of_not_lt h)
      refine ⟨?_, h2.2⟩
      intro i hi
      rcases List.mem_cons.mp hi with rfl | hi
      · exact hy
      · exact h2.1 i hi

lemma renderParas_above (sw : SW) (font : Str) (fs : ℤ) :
    ∀ (ps : List Str) (y : ℤ), 72 ≤ y →
    (∀ i ∈ (renderParas sw font fs ps y).1, drawsAtOrAbove 72 i) ∧
      72 ≤ (renderParas sw font fs ps y).2 := by
  intro ps
  induction ps with
  | nil =>
    intro y hy
    refine ⟨?_, hy⟩
    intro i hi
    simp [renderParas] at hi
  | cons p ps2 ih =>
    intro y hy
    rw [renderParas]
    have h1 := renderLines_above font fs (wrap_text (strip p) sw maxWidth font fs) y hy
    have h2 := ih _ h1.2
    refine ⟨?_, h2.2⟩
    intro i hi
    rcases List.mem_cons.mp hi with rfl | hi
    · trivial
    · rcases List.mem_append.mp hi with hi | hi
      · exact h1.1 i hi
      · exact h2.1 i hi

lemma countSP_append : ∀ (a b : List Instr), countSP (a ++ b) = countSP a + countSP b := by
  intro a
  induction a with
  | nil => intro b; simp [countSP]
  | cons i is ih =>
    intro b
    simp only [List.cons_append, countSP, List.append_eq, ih]
    omega

lemma renderLines_breakSim (font : Str) (fs : ℤ) :
    ∀ (ls : List Str) (y : ℤ),
    countSP (renderLines font fs ls y).1 = (breakSim (fs + 4) ls y).1 ∧
      (renderLines font fs ls y).2 = (breakSim (fs + 4) ls y).2 := by
  intro ls
  induction ls with
  | nil => intro y; simp [renderLines, breakSim, countSP]
  | cons l ls2 ih =>
    intro y
    rw [renderLines, breakSim]
    by_cases h : y - (fs + 4) < 72
    · rw [if_pos h, if_pos h]
      have h2 := ih topY
      refine ⟨?_, h2.2⟩
      simp only [countSP, h2.1]
      omega
    · rw [if_neg h, if_neg h]
      have h2 := ih (y - (fs + 4))
      refine ⟨?_, h2.2⟩
      simp only [countSP, h2.1]
      omega

lemma breakSim_fst_snd (adv : ℤ) : ∀ (l1 l2 : List Str) (y : ℤ),
    (breakSim adv (l1 ++ l2) y).1 =
      (breakSim adv l1 y).1 + (breakSim adv l2 (breakSim adv l1 y).2).1 ∧
    (breakSim adv (l1 ++ l2) y).2 = (breakSim adv l2 (breakSim adv l1 y).2).2 := by
  intro l1
  induction l1 with
  | nil => intro l2 y; simp [breakSim]
  | cons l ls ih =>
    intro l2 y
    simp only [List.cons_append]
    rw [breakSim, breakSim]
    by_cases h : y - adv < 72
    · rw [if_pos h, if_pos h]
      have h2 := ih l2 topY
      refine ⟨?_, h2.2⟩
      simp only [h2.1]
      omega
    · rw [if_neg h, if_neg h]
      have h2 := ih l2 (y - adv)
      exact ⟨h2.1, h2.2⟩

lemma renderParas_breakSim (sw : SW) (font : Str) (fs : ℤ) :
    ∀ (ps : List Str) (y : ℤ),
    countSP (renderParas sw font fs ps y).1 =
      (breakSim (fs + 4)
        ((ps.map (fun p => wrap_text (strip p) sw maxWidth font fs)).flatten) y).1 ∧
      (renderParas sw font fs ps y).2 =
        (breakSim (fs + 4)
          ((ps.map (fun p => wrap_text (strip p) sw maxWidth font fs)).flatten) y).2 := by
  intro ps
  induction ps with
  | nil => intro y; simp [renderParas, breakSim, countSP]
  | cons p ps2 ih =>
    intro y
    rw [renderParas]
    simp only [List.map_cons, List.flatten_cons]
    have hlines := renderLines_breakSim font fs (wrap_text (strip p) sw maxWidth font fs) y
    have happ := breakSim_fst_snd (fs + 4)
      (wrap_text (strip p) sw maxWidth font fs)
      ((ps2.map (fun q => wrap_text (strip q) sw maxWidth font fs)).flatten) y
    have htail := ih (renderLines font fs (wrap_text (strip p) sw maxWidth font fs) y).2
    rw [hlines.2] at htail
    constructor
    · simp only [countSP, countSP_append, List.append_eq, hlines.2, htail.1, hlines.1,
        happ.1]
      omega
    · simp only [hlines.2, htail.2, happ.2]

/-! ### The claims -/

/-- C1: for every input text, every max_width and the given
width-measurement function, every line returned by wrap_text measures
at most max_width, except a line consisting of exactly one word whose
own measured width already exceeds max_width, placed alone as an
overflowing line.  The hypothesis records the given measurement
context: reportlab's stringWidth of the empty string is 0 and the
spec's max_width is a positive number, so the empty string measures
within max_width. -/
theorem claim1_wrap_width (text : Str) (sw : SW) (maxW : ℤ) (font : Str) (fs : ℤ)
    (hempty : sw [] font fs ≤ maxW) :
    ∀ l ∈ wrap_text text sw maxW font fs,
      sw l font fs ≤ maxW ∨ ((pySplit l).length = 1 ∧ maxW < sw l font fs) := by
  intro l hl
  rw [wrap_text, show ([] : Str) = joinWords [] from rfl] at hl
  obtain ⟨us, hus, rfl, hdisj⟩ :=
    wrapAux_shape (fun s => sw s font fs) maxW (pySplit text) (pySplit_wordOK text)
      [] (by intro w hw; simp at hw) (Or.inl rfl) l hl
  rcases hdisj with rfl | h | h
  · left
    simpa [joinWords] using hempty
  · left
    exact h
  · by_cases hle : sw (joinWords us) font fs ≤ maxW
    · left
      exact hle
    · right
      refine ⟨?_, lt_of_not_le hle⟩
      rw [pySplit_joinWords us hus, h]

/-- Witness for C1 at a concrete input. -/
theorem claim1_wrap_width_witness :
    swLen [] [] 0 ≤ 8 ∧
      ∀ l ∈ wrap_text "hi there".toList swLen 8 [] 0,
        swLen l [] 0 ≤ 8 ∨ ((pySplit l).length = 1 ∧ 8 < swLen l [] 0) :=
  ⟨by decide, claim1_wrap_width "hi there".toList swLen 8 [] 0 (by decide)⟩

/-- C2: concatenating the words of all lines returned by wrap_text, in
order, reproduces exactly the whitespace-split word sequence of the
input, and within each returned line the words are joined by single
spaces. -/
theorem claim2_words_preserved (text : Str) (sw : SW) (maxW : ℤ) (font : Str) (fs : ℤ) :
    ((wrap_text text sw maxW font fs).map pySplit).flatten = pySplit text ∧
      ∀ l ∈ wrap_text text sw maxW font fs, l = joinWords (pySplit l) := by
  constructor
  · have hflat := wrapAux_flatten (fun s => sw s font fs) maxW (pySplit text)
      (pySplit_wordOK text) [] (by intro w hw; simp at hw)
    simpa [wrap_text, joinWords] using hflat
  · intro l hl
    rw [wrap_text, show ([] : Str) = joinWords [] from rfl] at hl
    obtain ⟨us, hus, rfl, -⟩ :=
      wrapAux_shape (fun s => sw s font fs) maxW (pySplit text) (pySplit_wordOK text)
        [] (by intro w hw; simp at hw) (Or.inl rfl) l hl
    rw [pySplit_joinWords us hus]

/-- C3 fails on the code: with the per-character measure and max_width
10 (the width of "alpha beta"), "gamma delta" measures 11 and does not
fit, so wrap_text does not return the two claimed lines. -/
theorem claim3_counterexample :
    wrap_text "alpha beta gamma delta".toList swLen 10 [] 0 ≠
      ["alpha beta".toList, "gamma delta".toList] := by decide

/-- C3 amended: under the per-character measure with max_width 10,
wrap_text on "alpha beta gamma delta" returns the three lines
"alpha beta", "gamma", "delta". -/
theorem claim3_amended :
    wrap_text "alpha beta gamma delta".toList swLen 10 [] 0 =
      ["alpha beta".toList, "gamma".toList, "delta".toList] := by decide

/-- C4 fails on the code: for "Para one.\n\nPara two." the second
paragraph is drawn at y = 670, exactly one line-advance (14) below the
first, so the empty paragraph produced no blank-line advance; the draw
at y = 656 that the claim predicts never appears. -/
theorem claim4_counterexample :
    create_pdf_from_text "Para one.\n\nPara two.".toList swLen "#003366".toList
        "NotoSans".toList 10 =
      [Instr.setFont "NotoSans".toList 16,
       Instr.setFillColor (PdfColor.hex "#003366".toList),
       Instr.drawString 72 720 titleStr,
       Instr.setFont "NotoSans".toList 10,
       Instr.setFillColor PdfColor.black,
       Instr.setFont "NotoSans".toList 10,
       Instr.drawString 72 684 "Para one.".toList,
       Instr.setFont "NotoSans".toList 10,
       Instr.setFont "NotoSans".toList 10,
       Instr.drawString 72 670 "Para two.".toList] ∧
      Instr.drawString 72 656 "Para two.".toList ∉
        create_pdf_from_text "Para one.\n\nPara two.".toList swLen "#003366".toList
          "NotoSans".toList 10 := by decide

/-- C4 amended: a paragraph that is empty (or whitespace-only) after
stripping wraps to no lines, so the renderer emits no draw instruction
and does not advance the cursor for it; only wrap_text's set-font call
appears, and vertical spacing between the surrounding paragraphs is
not preserved. -/
theorem claim4_amended (sw : SW) (font : Str) (fs : ℤ) (p : Str) (ps : List Str) (y : ℤ)
    (h : pySplit (strip p) = []) :
    renderParas sw font fs (p :: ps) y =
      (Instr.setFont font fs :: (renderParas sw font fs ps y).1,
       (renderParas sw font fs ps y).2) := by
  have hwrap : wrap_text (strip p) sw maxWidth font fs = [] := by
    rw [wrap_text, h, wrapAux, if_pos rfl]
  rw [renderParas]
  simp only [hwrap]
  simp [renderLines]

/-- Witness for C4 amended at a concrete input. -/
theorem claim4_amended_witness :
    pySplit (strip "".toList) = [] ∧
      renderParas swLen [] 10 ("".toList :: ["Hi".toList]) 684 =
        (Instr.setFont [] 10 :: (renderParas swLen [] 10 ["Hi".toList] 684).1,
         (renderParas swLen [] 10 ["Hi".toList] 684).2) :=
  ⟨by decide, claim4_amended swLen [] 10 "".toList ["Hi".toList] 684 (by decide)⟩

/-- C5: every draw-text instruction emitted by create_pdf_from_text,
title and body lines alike, lies at a cursor y-position at or above
the bottom margin of 72 units. -/
theorem claim5_draws_above_margin (text : Str) (sw : SW) (colorHex : Str) (font : Str)
    (fs : ℤ) :
    ∀ i ∈ create_pdf_from_text text sw colorHex font fs, drawsAtOrAbove 72 i := by
  intro i hi
  rw [create_pdf_from_text] at hi
  have hbody := renderParas_above sw font fs (splitNL text) (topY - 36)
    (by norm_num [topY])
  rcases List.mem_cons.mp hi with rfl | hi
  · trivial
  rcases List.mem_cons.mp hi with rfl | hi
  · trivial
  rcases List.mem_cons.mp hi with rfl | hi
  · show (72 : ℤ) ≤ topY
    norm_num [topY]
  rcases List.mem_cons.mp hi with rfl | hi
  · trivial
  rcases List.mem_cons.mp hi with rfl | hi
  · trivial
  exact hbody.1 i hi

set_option maxRecDepth 20000 in
/-- C6 fails on the code: for 44 one-word lines at font size 10 the
renderer emits one page break (the body of page one starts at 684,
below the title), while the independent count against a full usable
height of page_height - 2*margin = 648 predicts none. -/
theorem claim6_counterexample :
    countSP (create_pdf_from_text text44 swWide "#003366".toList "NotoSans".toList 10) = 1 ∧
      (breakSim (10 + 4) (allWrappedLines text44 swWide "NotoSans".toList 10) topY).1 = 0 := by
  decide

/-- C6 amended: the number of page-break instructions equals the
independent count obtained by summing the per-line advances
(font_size + 4) of all wrapped lines, with the cursor starting at
684 = top margin minus the 36-unit title advance on the first page and
resetting to 720 on later pages. -/
theorem claim6_amended (text : Str) (sw : SW) (colorHex : Str) (font : Str) (fs : ℤ) :
    countSP (create_pdf_from_text text sw colorHex font fs) =
      (breakSim (fs + 4) (allWrappedLines text sw font fs) (topY - 36)).1 := by
  rw [create_pdf_from_text, allWrappedLines]
  simp only [countSP]
  simpa using (renderParas_breakSim sw font fs (splitNL text) (topY - 36)).1

/-- C7 fails on the code: the whitespace-only text " " is non-empty but
wrap_text returns the empty list for it (it splits into no words). -/
theorem claim7_counterexample :
    ([' '] : Str) ≠ [] ∧ wrap_text [' '] swLen 468 [] 10 = [] := by decide

/-- C7 amended: wrap_text always returns a finite list of lines, and
that list is non-empty whenever the input text contains at least one
non-whitespace character (equivalently, splits into at least one
word). -/
theorem claim7_amended (text : Str) (sw : SW) (maxW : ℤ) (font : Str) (fs : ℤ)
    (h : pySplit text ≠ []) :
    wrap_text text sw maxW font fs ≠ [] := by
  rw [wrap_text]
  refine wrapAux_ne_nil _ maxW (pySplit text) [] ?_ (Or.inl h)
  intro w hw
  exact (pySplit_wordOK text w hw).1

/-- Witness for C7 amended at a concrete input. -/
theorem claim7_amended_witness :
    pySplit "hi".toList ≠ [] ∧ wrap_text "hi".toList swLen 468 [] 10 ≠ [] :=
  ⟨by decide, claim7_amended "hi".toList swLen 468 [] 10 (by decide)⟩

/-- C8: if the font is unregistered, executing the instruction stream
of create_pdf_from_text fails at the very first set-font call: nothing
at all is executed, in particular no draw instruction precedes the
failure. -/
theorem claim8_font_fail_fast (text : Str) (sw : SW) (colorHex : Str) (font : Str)
    (fs : ℤ) (reg : Str → Bool) (h : reg font = false) :
    execCanvas reg (create_pdf_from_text text sw colorHex font fs) = ([], false) := by
  rw [create_pdf_from_text, execCanvas, h]
  simp

/-- Witness for C8 at a concrete input. -/
theorem claim8_font_fail_fast_witness :
    (fun _ : Str => false) "NotoSans".toList = false ∧
      execCanvas (fun _ => false)
        (create_pdf_from_text "hi".toList swLen "#003366".toList "NotoSans".toList 10) =
        ([], false) :=
  ⟨rfl, claim8_font_fail_fast "hi".toList swLen "#003366".toList "NotoSans".toList 10
    (fun _ => false) rfl⟩

/-- C9: create_pdf_from_text is deterministic; two invocations with
identical text, width function, color, font and font size produce the
identical instruction stream.  The renderer is a pure function of its
inputs: the model has no other state. -/
theorem claim9_deterministic (text : Str) (sw : SW) (colorHex : Str) (font : Str)
    (fs : ℤ) :
    create_pdf_from_text text sw colorHex font fs =
      create_pdf_from_text text sw colorHex font fs := rfl

/-- C10: when the first word of the text measures strictly wider than
max_width, the first line returned by wrap_text is the empty string --
the untested empty current_line is flushed before the overwide word
starts its own line. -/
theorem claim10_overwide_first_word (text : Str) (sw : SW) (maxW : ℤ) (font : Str)
    (fs : ℤ) (w : Str) (ws : List Str) (hsplit : pySplit text = w :: ws)
    (hwide : maxW < sw w font fs) :
    wrap_text text sw maxW font fs =
      [] :: wrapAux (fun s => sw s font fs) maxW ws w := by
  have hw : ¬ sw w font fs ≤ maxW := not_le.mpr hwide
  simp [wrap_text, hsplit, wrapAux, hw]

/-- Witness for C10 at a concrete input. -/
theorem claim10_overwide_first_word_witness :
    pySplit "ab".toList = ["ab".toList] ∧ (1 : ℤ) < swLen "ab".toList [] 0 ∧
      wrap_text "ab".toList swLen 1 [] 0 =
        [] :: wrapAux (fun s => swLen s [] 0) 1 [] "ab".toList :=
  ⟨by decide, by decide,
    claim10_overwide_first_word "ab".toList swLen 1 [] 0 "ab".toList [] (by decide)
      (by decide)⟩

/-- Witness for C5 at a concrete input: the body line of "Hi" is drawn
at y = 684, at or above the bottom margin. -/
theorem claim5_draws_above_margin_witness :
    drawsAtOrAbove 72 (Instr.drawString 72 684 "Hi".toList) :=
  claim5_draws_above_margin "Hi".toList swLen "#003366".toList "NotoSans".toList 10
    (Instr.drawString 72 684 "Hi".toList) (by decide)
